import Mathlib

/-!
Verification of the expense-tracker core (src/expense.py) against its
specification.  Python strings are modelled as lists of characters
(`Str`), Python's `SystemExit` failures as `Except PyErr` values, and the
SQLite tables as in-memory lists carried explicitly through every
operation.  Character-level operations (`str.strip`, `str.isdigit`,
`str.lower`, SQL `LIKE`) are modelled over the ASCII range in which the
program operates.
-/

namespace Expense

/-- Python strings are modelled as lists of characters. -/
abbrev Str := List Char

/-- Turn a Lean string literal into the character-list model. -/
def str (s : String) : Str := s.data

/-- Model of Python `str.strip`: drop whitespace from both ends. -/
def pyStrip (l : Str) : Str :=
  ((l.dropWhile Char.isWhitespace).reverse.dropWhile Char.isWhitespace).reverse

/-- Model of Python `str.isdigit` (ASCII range): nonempty and all digits. -/
def isDigits (l : Str) : Bool := !l.isEmpty && l.all Char.isDigit

/-- Value of a decimal digit string, as Python `int()` computes it on
strings of digits. -/
def digitsVal (l : Str) : Nat := l.foldl (fun a c => 10 * a + (c.toNat - 48)) 0

/-- Little-endian decimal digits, with structural fuel so that the kernel
can evaluate it. -/
def digitsRev : Nat → Nat → List Nat
  | 0, _ => []
  | fuel + 1, n => if n = 0 then [] else n % 10 :: digitsRev fuel (n / 10)

/-- Decimal rendering of a natural number, as Python `str`/f-strings
produce for a non-negative `int`. -/
def natRepr (n : Nat) : Str :=
  if n = 0 then ['0'] else ((digitsRev n n).reverse.map Nat.digitChar)

/-- Two-digit zero-padded rendering, as the format `:02d` produces for
numbers below 100. -/
def pad2 (n : Nat) : Str := if n < 10 then '0' :: natRepr n else natRepr n

/-- The `SystemExit` error outcomes of expense.py, one constructor per
distinct message. -/
inductive PyErr where
  /-- "Amount cannot be empty." -/
  | emptyAmount
  /-- "Invalid amount format." -/
  | amountFormat
  /-- "Amount must be a number like 12 or 12.34" -/
  | amountNotNumber
  /-- "Invalid date. Use YYYY-MM-DD ..." -/
  | invalidDate
  /-- "Month must be YYYY-MM." -/
  | invalidMonth
  /-- "Category cannot be empty." -/
  | emptyCategory
  /-- "No expense found with id ..." -/
  | notFound
  /-- "Keyword cannot be empty." -/
  | emptyKeyword
  /-- "Date parse failed for '...'. Check --date-format." -/
  | dateParseFailed
  /-- "CSV has no headers." -/
  | noHeaders
  deriving DecidableEq, Repr

/-- The text before the first dot, and the text after it when a dot
occurs.  Mirrors `str.split(".")` for strings with at most one dot; the
one call site checks the dot count first. -/
def splitDot : Str → Str × Option Str
  | [] => ([], none)
  | c :: cs =>
    if c = '.' then ([], some cs)
    else
      let r := splitDot cs
      (c :: r.1, r.2)

/-- `dollars_to_cents` from expense.py: parse a decimal dollars string
into integer cents, truncating past two fractional digits. -/
def dollars_to_cents (s0 : Str) : Except PyErr Nat :=
  let s := pyStrip s0
  if s.isEmpty then .error .emptyAmount
  else if 1 < s.count '.' then .error .amountFormat
  else
    let p := splitDot s
    let dollars := p.1
    let cents0 := match p.2 with | none => ['0'] | some c => c
    if !isDigits dollars || (!cents0.isEmpty && !isDigits cents0) then
      .error .amountNotNumber
    else
      let cents1 := if cents0.isEmpty then ['0'] else cents0
      let cents2 := if cents1.length = 1 then cents1 ++ ['0'] else cents1
      let cents3 := if 2 < cents2.length then cents2.take 2 else cents2
      .ok (digitsVal dollars * 100 + digitsVal cents3)

/-- `cents_to_dollars` from expense.py: render signed cents as a decimal
string with exactly two fractional digits. -/
def cents_to_dollars (c : Int) : Str :=
  (if c < 0 then ['-'] else []) ++ natRepr (c.natAbs / 100) ++ '.' :: pad2 (c.natAbs % 100)

/-- The amount-parsing step of `import_csv` (expense.py lines 342-345):
drop comma separators, strip, split off a leading minus sign, parse the
rest as dollars and apply the sign. -/
def importAmount (raw : Str) : Except PyErr Int :=
  match pyStrip (raw.filter (fun c => c != ',')) with
  | '-' :: rest => (dollars_to_cents rest).map (fun n => -(n : Int))
  | amt => (dollars_to_cents amt).map (fun n => (n : Int))

/-! ### Digit-string lemmas -/

lemma digitChar_isDigit {d : Nat} (hd : d < 10) : (Nat.digitChar d).isDigit = true := by
  revert hd; revert d; decide

lemma digitChar_val {d : Nat} (hd : d < 10) : (Nat.digitChar d).toNat - 48 = d := by
  revert hd; revert d; decide

lemma digitChar_not_ws {d : Nat} (hd : d < 10) : (Nat.digitChar d).isWhitespace = false := by
  revert hd; revert d; decide

lemma digitChar_ne_dot {d : Nat} (hd : d < 10) : Nat.digitChar d ≠ '.' := by
  revert hd; revert d; decide

lemma digitChar_ne_comma {d : Nat} (hd : d < 10) : Nat.digitChar d ≠ ',' := by
  revert hd; revert d; decide

lemma digitChar_ne_dash {d : Nat} (hd : d < 10) : Nat.digitChar d ≠ '-' := by
  revert hd; revert d; decide

lemma digitsRev_eq (fuel n : Nat) (h : n ≤ fuel) :
    digitsRev fuel n = Nat.digits 10 n := by
  induction fuel generalizing n with
  | zero =>
    have hn : n = 0 := Nat.le_zero.mp h
    subst hn
    simp [digitsRev]
  | succ fuel ih =>
    unfold digitsRev
    by_cases hn : n = 0
    · subst hn
      simp
    · rw [if_neg hn, Nat.digits_def' (by norm_num : (1:Nat) < 10)
        (Nat.pos_of_ne_zero hn)]
      rw [ih (n / 10) (by
        have h10 : n / 10 < n := Nat.div_lt_self (Nat.pos_of_ne_zero hn)
          (by norm_num)
        omega)]

/-- `natRepr`, written with `Nat.digits`. -/
lemma natRepr_eq_digits (n : Nat) :
    natRepr n = if n = 0 then ['0']
      else ((Nat.digits 10 n).reverse.map Nat.digitChar) := by
  unfold natRepr
  rw [digitsRev_eq n n le_rfl]

lemma mem_natRepr (n : Nat) (c : Char) (hc : c ∈ natRepr n) :
    ∃ d, d < 10 ∧ c = Nat.digitChar d := by
  rw [natRepr_eq_digits] at hc
  split at hc
  · simp only [List.mem_singleton] at hc
    exact ⟨0, by norm_num, by simp [hc, Nat.digitChar]⟩
  · simp only [List.mem_map, List.mem_reverse] at hc
    obtain ⟨d, hd, rfl⟩ := hc
    exact ⟨d, Nat.digits_lt_base (by norm_num) hd, rfl⟩

lemma natRepr_all_digits (n : Nat) : ∀ c ∈ natRepr n, c.isDigit = true := by
  intro c hc
  obtain ⟨d, hd, rfl⟩ := mem_natRepr n c hc
  exact digitChar_isDigit hd

lemma natRepr_ne_nil (n : Nat) : natRepr n ≠ [] := by
  rw [natRepr_eq_digits]
  split
  · simp
  · next h =>
    simp only [ne_eq, List.map_eq_nil_iff, List.reverse_eq_nil_iff]
    exact Nat.digits_ne_nil_iff_ne_zero.mpr h

/-- Big-endian value of a digit list. -/
def valBE (L : List Nat) : Nat := L.foldl (fun a d => 10 * a + d) 0

lemma digitsVal_map_digitChar (L : List Nat) (hL : ∀ d ∈ L, d < 10) :
    digitsVal (L.map Nat.digitChar) = valBE L := by
  unfold digitsVal valBE
  rw [List.foldl_map]
  induction L with
  | nil => rfl
  | cons d ds ih =>
    have hd : d < 10 := hL d (by simp)
    -- both folds agree on every element below 10
    have : ∀ (a : Nat) (l : List Nat), (∀ x ∈ l, x < 10) →
        List.foldl (fun x y => 10 * x + ((Nat.digitChar y).toNat - 48)) a l =
        List.foldl (fun a d => 10 * a + d) a l := by
      intro a l
      induction l generalizing a with
      | nil => intro _; rfl
      | cons x xs ihx =>
        intro hxl
        simp only [List.foldl_cons]
        rw [digitChar_val (hxl x (by simp))]
        exact ihx _ (fun y hy => hxl y (by simp [hy]))
    exact this 0 (d :: ds) hL

lemma valBE_reverse_eq_ofDigits (L : List Nat) :
    valBE L.reverse = Nat.ofDigits 10 L := by
  induction L with
  | nil => rfl
  | cons d ds ih =>
    unfold valBE at *
    rw [List.reverse_cons, List.foldl_append, ih]
    simp [Nat.ofDigits_cons]
    ring

lemma digitsVal_natRepr (n : Nat) : digitsVal (natRepr n) = n := by
  rw [natRepr_eq_digits]
  split
  · next h => subst h; rfl
  · next h =>
    rw [digitsVal_map_digitChar _ (by
      intro d hd
      rw [List.mem_reverse] at hd
      exact Nat.digits_lt_base (by norm_num) hd)]
    rw [valBE_reverse_eq_ofDigits, Nat.ofDigits_digits]

lemma natRepr_lt_ten (n : Nat) (hn : n < 10) : ∃ c, natRepr n = [c] := by
  rw [natRepr_eq_digits]
  split
  · exact ⟨'0', rfl⟩
  · next h =>
    rw [Nat.digits_def' (by norm_num : (1:Nat) < 10) (Nat.pos_of_ne_zero h)]
    rw [Nat.mod_eq_of_lt hn, Nat.div_eq_of_lt hn]
    exact ⟨Nat.digitChar n, by simp⟩

lemma pad2_length (n : Nat) (hn : n < 100) : (pad2 n).length = 2 := by
  unfold pad2
  split
  · next h =>
    obtain ⟨c, hc⟩ := natRepr_lt_ten n h
    simp [hc]
  · next h =>
    push_neg at h
    rw [natRepr_eq_digits]
    split
    · next h0 => omega
    · next h0 =>
      rw [Nat.digits_def' (by norm_num : (1:Nat) < 10) (Nat.pos_of_ne_zero h0)]
      have h10 : 0 < n / 10 := Nat.div_pos h (by norm_num)
      rw [Nat.digits_def' (by norm_num : (1:Nat) < 10) h10]
      have : n / 10 / 10 = 0 := by omega
      rw [this]
      simp

lemma digitsVal_pad2 (n : Nat) : digitsVal (pad2 n) = n := by
  unfold pad2
  split
  · unfold digitsVal
    simp only [List.foldl_cons]
    have h0 : (10 * 0 + ('0'.toNat - 48)) = 0 := by decide
    rw [h0]
    exact digitsVal_natRepr n
  · exact digitsVal_natRepr n

lemma pad2_all_digits (n : Nat) : ∀ c ∈ pad2 n, c.isDigit = true := by
  intro c hc
  unfold pad2 at hc
  split at hc
  · rw [List.mem_cons] at hc
    rcases hc with rfl | hc
    · decide
    · exact natRepr_all_digits n c hc
  · exact natRepr_all_digits n c hc

lemma pad2_ne_nil (n : Nat) : pad2 n ≠ [] := by
  unfold pad2
  split
  · simp
  · exact natRepr_ne_nil n

lemma isDigit_ne_dot {c : Char} (h : c.isDigit = true) : c ≠ '.' := by
  rintro rfl; exact absurd h (by decide)

lemma isDigit_ne_comma {c : Char} (h : c.isDigit = true) : c ≠ ',' := by
  rintro rfl; exact absurd h (by decide)

lemma isDigit_ne_dash {c : Char} (h : c.isDigit = true) : c ≠ '-' := by
  rintro rfl; exact absurd h (by decide)

lemma isDigit_not_ws {c : Char} (h : c.isDigit = true) : c.isWhitespace = false := by
  cases hw : c.isWhitespace
  · rfl
  · exfalso
    simp only [Char.isWhitespace, Bool.or_eq_true, decide_eq_true_eq] at hw
    rcases hw with ((rfl | rfl) | rfl) | rfl <;> exact absurd h (by decide)

/-! ### Stripping and splitting lemmas -/

lemma dropWhile_eq_self {p : Char → Bool} {l : Str} (h : ∀ c ∈ l, p c = false) :
    l.dropWhile p = l := by
  cases l with
  | nil => rfl
  | cons c cs => simp [List.dropWhile_cons, h c (List.mem_cons_self c cs)]

lemma pyStrip_eq_self {l : Str} (h : ∀ c ∈ l, c.isWhitespace = false) :
    pyStrip l = l := by
  unfold pyStrip
  rw [dropWhile_eq_self h, dropWhile_eq_self (by
    intro c hc
    exact h c (List.mem_reverse.mp hc)), List.reverse_reverse]

lemma splitDot_append {A B : Str} (hA : '.' ∉ A) :
    splitDot (A ++ '.' :: B) = (A, some B) := by
  induction A with
  | nil => simp [splitDot]
  | cons c cs ih =>
    have hc : c ≠ '.' := by intro h; exact hA (by simp [h])
    simp only [List.cons_append, splitDot, if_neg hc, List.append_eq]
    rw [ih (fun h => hA (by simp [h]))]

lemma count_dot_one {A B : Str} (hA : '.' ∉ A) (hB : '.' ∉ B) :
    (A ++ '.' :: B).count '.' = 1 := by
  rw [List.count_append, List.count_cons_self]
  rw [List.count_eq_zero_of_not_mem hA, List.count_eq_zero_of_not_mem hB]

/-- The characters of the rendered decimal body `natRepr d ++ '.' :: pad2 c`
are digits or the dot. -/
lemma mem_renderBody {d c : Nat} {x : Char} (hx : x ∈ natRepr d ++ '.' :: pad2 c) :
    x.isDigit = true ∨ x = '.' := by
  rw [List.mem_append, List.mem_cons] at hx
  rcases hx with hx | hx | hx
  · exact Or.inl (natRepr_all_digits d x hx)
  · exact Or.inr hx
  · exact Or.inl (pad2_all_digits c x hx)

lemma renderBody_no_ws (d c : Nat) :
    ∀ x ∈ natRepr d ++ '.' :: pad2 c, x.isWhitespace = false := by
  intro x hx
  rcases mem_renderBody hx with h | rfl
  · exact isDigit_not_ws h
  · decide

lemma renderBody_no_comma (d c : Nat) :
    ∀ x ∈ natRepr d ++ '.' :: pad2 c, (x != ',') = true := by
  intro x hx
  rcases mem_renderBody hx with h | rfl
  · simp [isDigit_ne_comma h]
  · decide

lemma isEmpty_false_of_ne_nil {l : Str} (h : l ≠ []) : l.isEmpty = false := by
  cases l with
  | nil => exact absurd rfl h
  | cons a as => rfl

/-- Parsing the canonical rendered form of `x` cents recovers `x`. -/
lemma dollars_to_cents_render (x : Nat) :
    dollars_to_cents (natRepr (x / 100) ++ '.' :: pad2 (x % 100)) = .ok x := by
  have hA : '.' ∉ natRepr (x / 100) := fun h =>
    isDigit_ne_dot (natRepr_all_digits _ _ h) rfl
  have hB : '.' ∉ pad2 (x % 100) := fun h =>
    isDigit_ne_dot (pad2_all_digits _ _ h) rfl
  have hne : (natRepr (x / 100) ++ '.' :: pad2 (x % 100)).isEmpty = false := by
    cases h : natRepr (x / 100) with
    | nil => exact absurd h (natRepr_ne_nil _)
    | cons a as => simp [h]
  have hdollars : isDigits (natRepr (x / 100)) = true := by
    unfold isDigits
    rw [isEmpty_false_of_ne_nil (natRepr_ne_nil _)]
    simp only [Bool.not_false, Bool.true_and, List.all_eq_true]
    exact natRepr_all_digits _
  have hcents : isDigits (pad2 (x % 100)) = true := by
    unfold isDigits
    rw [isEmpty_false_of_ne_nil (pad2_ne_nil _)]
    simp only [Bool.not_false, Bool.true_and, List.all_eq_true]
    exact pad2_all_digits _
  have hBne : (pad2 (x % 100)).isEmpty = false :=
    isEmpty_false_of_ne_nil (pad2_ne_nil _)
  have hlen : (pad2 (x % 100)).length = 2 := pad2_length _ (Nat.mod_lt _ (by norm_num))
  simp only [dollars_to_cents, pyStrip_eq_self (renderBody_no_ws _ _), hne,
    count_dot_one hA hB, splitDot_append hA, hdollars, hcents, hBne, hlen,
    Bool.not_true, Bool.not_false, Bool.false_and, Bool.and_false, Bool.false_or,
    Bool.or_false, Bool.false_eq_true, if_false, lt_irrefl]
  norm_num
  rw [digitsVal_natRepr, hlen]
  norm_num
  rw [digitsVal_pad2]
  have := Nat.div_add_mod x 100
  omega

/-- C2 core: the formatter/parser round-trip on non-negative cents. -/
lemma cents_roundtrip (x : Nat) :
    dollars_to_cents (cents_to_dollars (x : Int)) = .ok x := by
  unfold cents_to_dollars
  rw [if_neg (by omega : ¬((x : Int) < 0))]
  rw [Int.natAbs_ofNat, List.nil_append]
  exact dollars_to_cents_render x

/-- The import pipeline's signed amount parser recovers any rendered cents
value, negative or not. -/
lemma importAmount_render (a : Int) : importAmount (cents_to_dollars a) = .ok a := by
  unfold importAmount
  rcases lt_or_ge a 0 with hneg | hpos
  · have hrender : cents_to_dollars a =
        '-' :: (natRepr (a.natAbs / 100) ++ '.' :: pad2 (a.natAbs % 100)) := by
      unfold cents_to_dollars
      rw [if_pos hneg]
      rfl
    rw [hrender]
    have hfilter : (('-' :: (natRepr (a.natAbs / 100) ++ '.' :: pad2 (a.natAbs % 100))).filter
        (fun c => c != ',')) = '-' :: (natRepr (a.natAbs / 100) ++ '.' :: pad2 (a.natAbs % 100)) := by
      rw [List.filter_eq_self]
      intro c hc
      rw [List.mem_cons] at hc
      rcases hc with rfl | hc
      · decide
      · exact renderBody_no_comma _ _ c hc
    have hstrip : pyStrip ('-' :: (natRepr (a.natAbs / 100) ++ '.' :: pad2 (a.natAbs % 100))) =
        '-' :: (natRepr (a.natAbs / 100) ++ '.' :: pad2 (a.natAbs % 100)) := by
      apply pyStrip_eq_self
      intro c hc
      rw [List.mem_cons] at hc
      rcases hc with rfl | hc
      · decide
      · exact renderBody_no_ws _ _ c hc
    simp only [hfilter, hstrip]
    rw [dollars_to_cents_render a.natAbs]
    have hval : ((a.natAbs : Int)) = -a := Int.ofNat_natAbs_of_nonpos (le_of_lt hneg)
    simp [Except.map, hval]
  · have hrender : cents_to_dollars a =
        natRepr (a.natAbs / 100) ++ '.' :: pad2 (a.natAbs % 100) := by
      unfold cents_to_dollars
      rw [if_neg (by omega : ¬(a < 0)), List.nil_append]
    rw [hrender]
    have hfilter : ((natRepr (a.natAbs / 100) ++ '.' :: pad2 (a.natAbs % 100)).filter
        (fun c => c != ',')) = natRepr (a.natAbs / 100) ++ '.' :: pad2 (a.natAbs % 100) := by
      rw [List.filter_eq_self]
      exact renderBody_no_comma _ _
    simp only [hfilter, pyStrip_eq_self (renderBody_no_ws _ _)]
    split
    · next rest heq =>
      exfalso
      cases hc : natRepr (a.natAbs / 100) with
      | nil => exact natRepr_ne_nil _ hc
      | cons c cs =>
        rw [hc, List.cons_append, List.cons_eq_cons] at heq
        exact isDigit_ne_dash
          (natRepr_all_digits _ c (hc ▸ List.mem_cons_self c cs)) heq.1
    · rw [dollars_to_cents_render a.natAbs]
      have hval : ((a.natAbs : Int)) = a := Int.natAbs_of_nonneg hpos
      simp [Except.map, hval]

/-! ### Rule engine -/

/-- ASCII lower-casing of one character, the case relevant to the program's
`str.lower()` uses. -/
def lowerChar (c : Char) : Char :=
  if 'A' ≤ c ∧ c ≤ 'Z' then Char.ofNat (c.toNat + 32) else c

/-- Model of Python `str.lower()` over the ASCII range. -/
def lowerStr (l : Str) : Str := l.map lowerChar

/-- `normalize_category` from expense.py: strip, then lower-case. -/
def normalize_category (s : Str) : Str := lowerStr (pyStrip s)

/-- A row of the rules table. -/
structure Rule where
  id : Nat
  keyword : Str
  category : Str
  priority : Int
  deriving DecidableEq, Repr

/-- Boolean test that `pat` occurs at the start of `l`. -/
def headMatch : Str → Str → Bool
  | [], _ => true
  | _ :: _, [] => false
  | p :: ps, c :: cs => p = c && headMatch ps cs

/-- Python substring containment `pat in l`. -/
def containsSub : Str → Str → Bool
  | pat, [] => headMatch pat []
  | pat, c :: cs => headMatch pat (c :: cs) || containsSub pat cs

/-- The `ORDER BY priority DESC, id ASC` ordering on rules: `a` is listed
no later than `b`. -/
def ruleOrd (a b : Rule) : Prop :=
  b.priority < a.priority ∨ (a.priority = b.priority ∧ a.id ≤ b.id)

instance : DecidableRel ruleOrd := fun a b => by
  unfold ruleOrd; infer_instance

instance : IsTotal Rule ruleOrd := ⟨by intro a b; unfold ruleOrd; omega⟩

instance : IsTrans Rule ruleOrd := ⟨by intro a b c hab hbc; unfold ruleOrd at *; omega⟩

/-- The scan of `categorize_with_rules`: first rule whose keyword is
contained in the text wins. -/
def scanRules : List Rule → Str → Str
  | [], _ => str "uncategorized"
  | r :: rs, t => if containsSub r.keyword t then r.category else scanRules rs t

/-- `categorize_with_rules` from expense.py: lower-case the text, scan the
rules in `(priority DESC, id ASC)` order, return the first match's
category, else "uncategorized". -/
def categorize_with_rules (rules : List Rule) (text : Str) : Str :=
  scanRules (List.insertionSort ruleOrd rules) (lowerStr text)

/-- `add_rule` from expense.py: reject keywords that normalize to empty,
append the rule with the next id. -/
def add_rule (rules : List Rule) (nid : Nat) (keyword category : Str)
    (priority : Int) : Except PyErr (List Rule) :=
  let kw := lowerStr (pyStrip keyword)
  if kw.isEmpty then .error .emptyKeyword
  else .ok (rules ++ [⟨nid, kw, normalize_category category, priority⟩])

lemma containsSub_nil {kw : Str} (h : kw ≠ []) : containsSub kw [] = false := by
  cases kw with
  | nil => exact absurd rfl h
  | cons p ps => rfl

lemma scanRules_no_match (L : List Rule) (t : Str)
    (h : ∀ ρ ∈ L, containsSub ρ.keyword t = false) :
    scanRules L t = str "uncategorized" := by
  induction L with
  | nil => rfl
  | cons a l ih =>
    unfold scanRules
    rw [h a (List.mem_cons_self a l)]
    simp only [Bool.false_eq_true, if_false]
    exact ih (fun ρ hρ => h ρ (List.mem_cons_of_mem a hρ))

lemma scanRules_found (L : List Rule) (t : Str) (hs : L.Pairwise ruleOrd)
    (ρ : Rule) (hρ : ρ ∈ L) (hm : containsSub ρ.keyword t = true) :
    ∃ ρ0 ∈ L, containsSub ρ0.keyword t = true ∧ scanRules L t = ρ0.category ∧
      ∀ ρ1 ∈ L, containsSub ρ1.keyword t = true → ρ0 = ρ1 ∨ ruleOrd ρ0 ρ1 := by
  induction L with
  | nil => exact absurd hρ (List.not_mem_nil ρ)
  | cons a l ih =>
    rw [List.pairwise_cons] at hs
    unfold scanRules
    cases hmatch : containsSub a.keyword t with
    | true =>
      refine ⟨a, List.mem_cons_self a l, hmatch, by simp, ?_⟩
      intro ρ1 hρ1 _
      rw [List.mem_cons] at hρ1
      rcases hρ1 with rfl | hρ1
      · exact Or.inl rfl
      · exact Or.inr (hs.1 ρ1 hρ1)
    | false =>
      have hρl : ρ ∈ l := by
        rw [List.mem_cons] at hρ
        rcases hρ with rfl | hρ
        · rw [hmatch] at hm; exact absurd hm (by simp)
        · exact hρ
      obtain ⟨ρ0, hρ0, hm0, hscan, hbest⟩ := ih hs.2 hρl
      refine ⟨ρ0, List.mem_cons_of_mem a hρ0, hm0, by simp [hscan], ?_⟩
      intro ρ1 hρ1 hm1
      rw [List.mem_cons] at hρ1
      rcases hρ1 with rfl | hρ1
      · rw [hmatch] at hm1; exact absurd hm1 (by simp)
      · exact hbest ρ1 hρ1 hm1

/-- C3: `categorize_with_rules` lower-cases the text and scans the rules in
(priority descending, id ascending) order: when some rule keyword occurs in
the lower-cased text it returns the category of the strictly first such rule;
when none occurs, or the text is empty (keywords being non-empty, as
`add_rule` guarantees for stored rules), it returns "uncategorized"; and on
the rule set [(food, dining, 1), (fast, fastfood, 5)] the text
"fastfood diner" is classified "fastfood". -/
theorem categorize_with_rules_spec (rules : List Rule) (text : Str)
    (hkw : ∀ ρ ∈ rules, ρ.keyword ≠ [])
    (hids : rules.Pairwise fun a b => a.id ≠ b.id) :
    ((∃ ρ ∈ rules, containsSub ρ.keyword (lowerStr text) = true) →
      ∃ ρ ∈ rules, containsSub ρ.keyword (lowerStr text) = true ∧
        categorize_with_rules rules text = ρ.category ∧
        ∀ ρ1 ∈ rules, ρ1 ≠ ρ → containsSub ρ1.keyword (lowerStr text) = true →
          ρ1.priority < ρ.priority ∨ (ρ1.priority = ρ.priority ∧ ρ.id < ρ1.id))
    ∧ ((∀ ρ ∈ rules, containsSub ρ.keyword (lowerStr text) = false) →
        categorize_with_rules rules text = str "uncategorized")
    ∧ (text = [] → categorize_with_rules rules text = str "uncategorized")
    ∧ categorize_with_rules
        [⟨1, str "food", str "dining", 1⟩, ⟨2, str "fast", str "fastfood", 5⟩]
        (str "fastfood diner") = str "fastfood" := by
  have hperm := List.perm_insertionSort ruleOrd rules
  have hsorted : (List.insertionSort ruleOrd rules).Pairwise ruleOrd :=
    List.sorted_insertionSort ruleOrd rules
  refine ⟨?_, ?_, ?_, by decide⟩
  · rintro ⟨ρ, hρ, hm⟩
    obtain ⟨ρ0, hρ0, hm0, hscan, hbest⟩ :=
      scanRules_found _ (lowerStr text) hsorted ρ (hperm.mem_iff.mpr hρ) hm
    refine ⟨ρ0, hperm.mem_iff.mp hρ0, hm0, hscan, ?_⟩
    intro ρ1 hρ1 hne hm1
    have h01 := hbest ρ1 (hperm.mem_iff.mpr hρ1) hm1
    rcases h01 with heq | hord
    · exact absurd heq.symm hne
    · have hidne : ρ0.id ≠ ρ1.id := by
        refine List.Pairwise.forall (fun _ _ h => Ne.symm h) hids
          (hperm.mem_iff.mp hρ0) hρ1 ?_
        exact fun h => hne (h ▸ rfl)
      unfold ruleOrd at hord
      omega
  · intro h
    unfold categorize_with_rules
    exact scanRules_no_match _ _ (fun ρ hρ => h ρ (hperm.mem_iff.mp hρ))
  · intro h
    subst h
    unfold categorize_with_rules
    exact scanRules_no_match _ _ (fun ρ hρ =>
      containsSub_nil (hkw ρ (hperm.mem_iff.mp hρ)))

/-! ### Budget store -/

/-- A row of the budgets table: (month, category, amount_cents). -/
abbrev Budget := Str × Str × Int

/-- `parse_month_ym` from expense.py: strip, check the "YYYY-MM" shape
(length 7, dash at index 4, digit year and month parts, month in 1..12),
return the stripped string. -/
def parse_month_ym (s0 : Str) : Except PyErr Str :=
  if (pyStrip s0).length ≠ 7 ∨ (pyStrip s0).get? 4 ≠ some '-' then
    .error .invalidMonth
  else if !isDigits ((pyStrip s0).takeWhile (fun c => c != '-')) ||
      !isDigits (((pyStrip s0).dropWhile (fun c => c != '-')).tail) then
    .error .invalidMonth
  else if digitsVal (((pyStrip s0).dropWhile (fun c => c != '-')).tail) < 1 ∨
      12 < digitsVal (((pyStrip s0).dropWhile (fun c => c != '-')).tail) then
    .error .invalidMonth
  else .ok (pyStrip s0)

/-- The ON CONFLICT(month, category) DO UPDATE upsert on the budgets
table. -/
def upsertBudget (bs : List Budget) (m c : Str) (a : Int) : List Budget :=
  if bs.any (fun e => decide (e.1 = m ∧ e.2.1 = c)) then
    bs.map (fun e => if e.1 = m ∧ e.2.1 = c then (m, c, a) else e)
  else bs ++ [(m, c, a)]

/-- `set_budget` from expense.py: validate the month, normalize the
category, insert-or-overwrite the (month, category) row. -/
def set_budget (bs : List Budget) (month category : Str) (amount : Int) :
    Except PyErr (List Budget) :=
  (parse_month_ym month).map
    (fun m => upsertBudget bs m (normalize_category category) amount)

/-- Budget-key uniqueness: at most one row per (month, category), the
PRIMARY KEY constraint of the budgets table. -/
def budgetsUnique (bs : List Budget) : Prop :=
  bs.Pairwise (fun e1 e2 => ¬(e1.1 = e2.1 ∧ e1.2.1 = e2.2.1))

lemma upsertBudget_unique (bs : List Budget) (m c : Str) (a : Int)
    (hu : budgetsUnique bs) : budgetsUnique (upsertBudget bs m c a) := by
  unfold upsertBudget
  split
  · rw [budgetsUnique, List.pairwise_map]
    refine hu.imp ?_
    intro e1 e2 h12
    by_cases h1 : e1.1 = m ∧ e1.2.1 = c
    · rw [if_pos h1]
      by_cases h2 : e2.1 = m ∧ e2.2.1 = c
      · exact absurd ⟨h1.1.trans h2.1.symm, h1.2.trans h2.2.symm⟩ h12
      · rw [if_neg h2]
        intro hcon
        exact h2 ⟨hcon.1.symm, hcon.2.symm⟩
    · rw [if_neg h1]
      by_cases h2 : e2.1 = m ∧ e2.2.1 = c
      · rw [if_pos h2]
        intro hcon
        exact h1 ⟨hcon.1, hcon.2⟩
      · rw [if_neg h2]
        exact h12
  · next hany =>
    rw [budgetsUnique, List.pairwise_append]
    refine ⟨hu, List.pairwise_singleton _ _, ?_⟩
    intro e1 he1 e2 he2
    rw [List.mem_singleton] at he2
    subst he2
    intro hcon
    rw [List.any_eq_true] at hany
    exact hany ⟨e1, he1, by simp [hcon.1, hcon.2]⟩

lemma filter_key_nil {l : List Budget} {m c : Str}
    (h : ∀ e ∈ l, ¬(e.1 = m ∧ e.2.1 = c)) :
    l.filter (fun e => decide (e.1 = m ∧ e.2.1 = c)) = [] := by
  rw [List.filter_eq_nil_iff]
  intro e he
  simp only [decide_eq_true_eq]
  exact h e he

lemma upsertBudget_filter (bs : List Budget) (m c : Str) (a : Int)
    (hu : budgetsUnique bs) :
    (upsertBudget bs m c a).filter (fun e => decide (e.1 = m ∧ e.2.1 = c)) =
      [(m, c, a)] := by
  unfold upsertBudget
  split
  · next hany =>
    induction bs with
    | nil => simp at hany
    | cons e l ih =>
      rw [budgetsUnique, List.pairwise_cons] at hu
      by_cases he : e.1 = m ∧ e.2.1 = c
      · rw [List.map_cons, if_pos he, List.filter_cons]
        simp only [decide_eq_true_eq, and_self, if_true, if_pos (by trivial : (m, c, a).1 = m ∧ (m, c, a).2.1 = c)]
        have hrest : ∀ e2 ∈ l, ¬(e2.1 = m ∧ e2.2.1 = c) := by
          intro e2 he2 hcon
          exact hu.1 e2 he2 ⟨he.1.trans hcon.1.symm, he.2.trans hcon.2.symm⟩
        have hmap : l.map (fun e => if e.1 = m ∧ e.2.1 = c then (m, c, a) else e) = l := by
          have h1 : ∀ e2 ∈ l, (if e2.1 = m ∧ e2.2.1 = c then (m, c, a) else e2) = id e2 :=
            fun e2 he2 => if_neg (hrest e2 he2)
          rw [List.map_congr_left h1, List.map_id]
        rw [hmap, filter_key_nil hrest]
      · rw [List.map_cons, if_neg he, List.filter_cons]
        rw [if_neg (by simpa using he)]
        have hany2 : l.any (fun e => decide (e.1 = m ∧ e.2.1 = c)) = true := by
          rw [List.any_cons] at hany
          rcases Bool.or_eq_true_iff.mp hany with h1 | h1
          · exact absurd (of_decide_eq_true h1) he
          · exact h1
        exact ih hu.2 hany2
  · next hany =>
    rw [List.filter_append, filter_key_nil (fun e he hcon => by
      simp only [Bool.not_eq_true, List.any_eq_false] at hany
      have hfalse := hany e he
      rw [decide_eq_false_iff_not] at hfalse
      exact hfalse hcon)]
    simp

lemma set_budget_preserves_unique (bs : List Budget) (mo ca : Str) (am : Int)
    (bs3 : List Budget) (hu : budgetsUnique bs)
    (h : set_budget bs mo ca am = .ok bs3) : budgetsUnique bs3 := by
  unfold set_budget at h
  cases hp : parse_month_ym mo with
  | error e => rw [hp] at h; exact absurd h (by simp [Except.map])
  | ok m =>
    rw [hp] at h
    simp only [Except.map, Except.ok.injEq] at h
    rw [← h]
    exact upsertBudget_unique _ _ _ _ hu

/-! ### Ledger store -/

/-- A row of the expenses table. -/
structure Txn where
  id : Nat
  spent_on : Str
  amount_cents : Int
  category : Str
  note : Option Str
  deriving DecidableEq, Repr

/-- The expenses table plus the AUTOINCREMENT counter. -/
structure LedgerDB where
  rows : List Txn
  nextId : Nat
  deriving DecidableEq, Repr

/-- `add_expense` from expense.py: normalize the category and reject it if
empty, store None for a note that strips to empty, insert with the next
id. -/
def add_expense (db : LedgerDB) (spent_on : Str) (amount_cents : Int)
    (category : Str) (note : Option Str) : Except PyErr LedgerDB :=
  if (normalize_category category).isEmpty then .error .emptyCategory
  else .ok { rows := db.rows ++ [⟨db.nextId, spent_on, amount_cents,
               normalize_category category,
               (if (pyStrip (note.getD [])).isEmpty then none
                else some (pyStrip (note.getD [])))⟩],
             nextId := db.nextId + 1 }

/-- `delete_expense` from expense.py: the DELETE removes every row carrying
the id (at most one, ids being unique) and a zero row count raises
NotFound — in which case the commit wrote back an unchanged table. -/
def delete_expense (db : LedgerDB) (i : Nat) : Except PyErr LedgerDB :=
  let remaining := db.rows.filter (fun t => t.id != i)
  if remaining.length = db.rows.length then .error .notFound
  else .ok { db with rows := remaining }

/-! ### Dates -/

def isLeap (y : Nat) : Bool := (y % 4 = 0 && y % 100 ≠ 0) || y % 400 = 0

def daysInMonth (y m : Nat) : Nat :=
  if m = 2 then (if isLeap y then 29 else 28)
  else if m = 4 ∨ m = 6 ∨ m = 9 ∨ m = 11 then 30
  else 31

/-- Validity of a zero-padded YYYY-MM-DD date string: models a successful
`datetime.strptime` under the default `%Y-%m-%d` format, restricted to the
zero-padded form, which is the only form the program itself writes. -/
def validYMD (s : Str) : Bool :=
  match s with
  | [y1, y2, y3, y4, s5, m1, m2, s8, d1, d2] =>
    s5 = '-' && s8 = '-' &&
    [y1, y2, y3, y4, m1, m2, d1, d2].all Char.isDigit &&
    1 ≤ digitsVal [y1, y2, y3, y4] &&
    1 ≤ digitsVal [m1, m2] && digitsVal [m1, m2] ≤ 12 &&
    1 ≤ digitsVal [d1, d2] &&
    digitsVal [d1, d2] ≤ daysInMonth (digitsVal [y1, y2, y3, y4]) (digitsVal [m1, m2])
  | _ => false

/-- The date-parsing step of `import_csv` under the default `%Y-%m-%d`
format: `datetime.strptime(...).date().isoformat()`, which returns the
canonical string unchanged. -/
def parseDateYMD (s : Str) : Except PyErr Str :=
  if validYMD s then .ok s else .error .dateParseFailed

/-- `parse_date` from expense.py for literal dates (the `'today'` branch
reads the clock and is outside this model): strip, lower, validate
YYYY-MM-DD. -/
def parse_date (s0 : Str) : Except PyErr Str :=
  let s := lowerStr (pyStrip s0)
  if validYMD s then .ok s else .error .invalidDate

/-! ### Query -/

/-- SQLite text comparison (memcmp over the ASCII range): strict
lexicographic less-than. -/
def lexLt : Str → Str → Bool
  | [], [] => false
  | [], _ :: _ => true
  | _ :: _, [] => false
  | a :: as, b :: bs => a < b || (a = b && lexLt as bs)

/-- SQLite text comparison: less-or-equal. -/
def lexLe (s t : Str) : Bool := lexLt s t || s = t

/-- All suffixes of a string, longest first, down to the empty one. -/
def suffixes : Str → List Str
  | [] => [[]]
  | c :: cs => (c :: cs) :: suffixes cs

/-- SQL LIKE matching, case-insensitive over ASCII as SQLite's default
collation is: `%` matches any run (some suffix continues the match), `_`
any single character. -/
def likeMatch : Str → Str → Bool
  | [], t => t.isEmpty
  | p :: ps, t =>
    if p = '%' then (suffixes t).any (fun suf => likeMatch ps suf)
    else
      match t with
      | [] => false
      | c :: cs =>
        if p = '_' then likeMatch ps cs
        else lowerChar p = lowerChar c && likeMatch ps cs

/-- `ORDER BY spent_on DESC, id DESC`: `a` is listed no later than `b`. -/
def qOrd (a b : Txn) : Prop :=
  lexLt b.spent_on a.spent_on = true ∨ (b.spent_on = a.spent_on ∧ b.id ≤ a.id)

instance : DecidableRel qOrd := fun a b => by unfold qOrd; infer_instance

/-- Trichotomy of the string comparison. -/
lemma lexLt_trichotomy (s t : Str) :
    lexLt s t = true ∨ s = t ∨ lexLt t s = true := by
  induction s generalizing t with
  | nil => cases t <;> simp [lexLt]
  | cons a as ih =>
    cases t with
    | nil => simp [lexLt]
    | cons b bs =>
      rcases lt_trichotomy a b with hab | hab | hab
      · exact Or.inl (by simp [lexLt, hab])
      · subst hab
        rcases ih bs with h | h | h
        · exact Or.inl (by simp [lexLt, h])
        · exact Or.inr (Or.inl (by rw [h]))
        · exact Or.inr (Or.inr (by simp [lexLt, h]))
      · exact Or.inr (Or.inr (by simp [lexLt, hab]))

lemma lexLt_trans {s t u : Str} (h1 : lexLt s t = true) (h2 : lexLt t u = true) :
    lexLt s u = true := by
  induction s generalizing t u with
  | nil =>
    cases u with
    | nil => cases t <;> simp [lexLt] at h1 h2
    | cons c cs => simp [lexLt]
  | cons a as ih =>
    cases t with
    | nil => simp [lexLt] at h1
    | cons b bs =>
      cases u with
      | nil => simp [lexLt] at h2
      | cons c cs =>
        simp only [lexLt, Bool.or_eq_true, Bool.and_eq_true, decide_eq_true_eq] at h1 h2 ⊢
        rcases h1 with h1 | ⟨rfl, h1⟩
        · rcases h2 with h2 | ⟨rfl, h2⟩
          · exact Or.inl (lt_trans h1 h2)
          · exact Or.inl h1
        · rcases h2 with h2 | ⟨rfl, h2⟩
          · exact Or.inl h2
          · exact Or.inr ⟨rfl, ih h1 h2⟩

lemma lexLt_irrefl (s : Str) : lexLt s s = false := by
  induction s with
  | nil => rfl
  | cons a as ih => simp [lexLt, ih]

instance : IsTotal Txn qOrd := ⟨by
  intro a b
  unfold qOrd
  rcases lexLt_trichotomy b.spent_on a.spent_on with h | h | h
  · exact Or.inl (Or.inl h)
  · rcases le_total b.id a.id with hid | hid
    · exact Or.inl (Or.inr ⟨h, hid⟩)
    · exact Or.inr (Or.inr ⟨h.symm, hid⟩)
  · exact Or.inr (Or.inl h)⟩

instance : IsTrans Txn qOrd := ⟨by
  intro a b c hab hbc
  unfold qOrd at *
  rcases hab with hab | ⟨hab, hab2⟩
  · rcases hbc with hbc | ⟨hbc, hbc2⟩
    · exact Or.inl (lexLt_trans hbc hab)
    · exact Or.inl (hbc ▸ hab)
  · rcases hbc with hbc | ⟨hbc, hbc2⟩
    · exact Or.inl (hab ▸ hbc)
    · exact Or.inr ⟨hbc.trans hab, le_trans hbc2 hab2⟩⟩

/-- Python truthiness of an optional string argument: absent or empty
disables the filter. -/
def presentOpt (o : Option Str) : Option Str :=
  match o with
  | none => none
  | some s => if s.isEmpty then none else some s

/-- `list_expenses` from expense.py: the SQL query's WHERE conjunction
(exact normalized category, month prefix via substr, inclusive range via
text comparison, note LIKE '%search%'), ORDER BY spent_on DESC, id DESC,
and LIMIT.  Filters that are absent or empty are skipped. -/
def list_expenses (db : LedgerDB) (limit : Nat)
    (category month date_from date_to search : Option Str) :
    Except PyErr (List Txn) :=
  (match presentOpt month with
    | none => Except.ok none
    | some s => (parse_month_ym s).map some).bind (fun mo =>
  (match presentOpt date_from with
    | none => Except.ok none
    | some s => (parse_date s).map some).bind (fun dfrom =>
  (match presentOpt date_to with
    | none => Except.ok none
    | some s => (parse_date s).map some).bind (fun dto =>
  Except.ok ((List.insertionSort qOrd (db.rows.filter (fun t =>
    (match (presentOpt category).map normalize_category with
      | none => true | some c => t.category = c) &&
    (match mo with | none => true | some m => t.spent_on.take 7 = m) &&
    (match dfrom with | none => true | some d => lexLe d t.spent_on) &&
    (match dto with | none => true | some d => lexLe t.spent_on d) &&
    (match presentOpt search with
      | none => true
      | some s => likeMatch ('%' :: (s ++ ['%']))
          (t.note.getD []))))).take limit))))

/-- `list_expenses` with its default limit of 20. -/
def list_expenses_default (db : LedgerDB)
    (category month date_from date_to search : Option Str) :
    Except PyErr (List Txn) :=
  list_expenses db 20 category month date_from date_to search

/-- The spec's description of the query filter: conjunction of exact
(normalized) category, YYYY-MM prefix of the date, inclusive date range,
and case-insensitive substring containment in the note. -/
def specMatches (category month date_from date_to search : Option Str)
    (t : Txn) : Bool :=
  (match category with
    | none => true | some c => t.category = normalize_category c) &&
  (match month with | none => true | some m => t.spent_on.take 7 = m) &&
  (match date_from with | none => true | some d => lexLe d t.spent_on) &&
  (match date_to with | none => true | some d => lexLe t.spent_on d) &&
  (match search with
    | none => true
    | some s => containsSub (lowerStr s) (lowerStr (t.note.getD [])))

/-! ### CSV exchange -/

/-- `ORDER BY spent_on ASC, id ASC`. -/
def eOrd (a b : Txn) : Prop :=
  lexLt a.spent_on b.spent_on = true ∨ (a.spent_on = b.spent_on ∧ a.id ≤ b.id)

instance : DecidableRel eOrd := fun a b => by unfold eOrd; infer_instance

instance : IsTotal Txn eOrd := ⟨by
  intro a b
  unfold eOrd
  rcases lexLt_trichotomy a.spent_on b.spent_on with h | h | h
  · exact Or.inl (Or.inl h)
  · rcases le_total a.id b.id with hid | hid
    · exact Or.inl (Or.inr ⟨h, hid⟩)
    · exact Or.inr (Or.inr ⟨h.symm, hid⟩)
  · exact Or.inr (Or.inl h)⟩

instance : IsTrans Txn eOrd := ⟨by
  intro a b c hab hbc
  unfold eOrd at *
  rcases hab with hab | ⟨hab, hab2⟩
  · rcases hbc with hbc | ⟨hbc, hbc2⟩
    · exact Or.inl (lexLt_trans hab hbc)
    · exact Or.inl (hbc ▸ hab)
  · rcases hbc with hbc | ⟨hbc, hbc2⟩
    · exact Or.inl (hab ▸ hbc)
    · exact Or.inr ⟨hab.trans hbc, le_trans hab2 hbc2⟩⟩

/-- `export_month_csv` from expense.py, the written file modelled as its
list of records (the csv layer's quoting round-trips field values exactly
and is not modelled): the fixed header, then one row per transaction of the
month in (spent_on ASC, id ASC) order, the amount rendered by
`cents_to_dollars` and an absent note written as the empty string. -/
def export_month_csv (db : LedgerDB) (month : Str) :
    Except PyErr (List (List Str)) :=
  (parse_month_ym month).map (fun m =>
    [str "date", str "amount", str "category", str "note"] ::
      (List.insertionSort eOrd (db.rows.filter
          (fun t => t.spent_on.take 7 = m))).map
        (fun t => [t.spent_on, cents_to_dollars t.amount_cents, t.category,
          t.note.getD []]))

/-- A staged import row: (date, amount_cents, category, note). -/
abbrev Staged := Str × Int × Str × Option Str

/-- `csv.DictReader` field access: zip the header with the row and look the
column name up (header names are distinct wherever this model is used). -/
def rowGet (header row : List Str) (col : Str) : Option Str :=
  ((header.zip row).find? (fun p => p.1 = col)).map (fun p => p.2)

/-- One iteration of the `import_csv` row loop: skip the row when the date
or amount field is missing or strips to empty, otherwise fail fast on an
unparseable date, parse the signed amount, classify the description with
the rule engine and stage the tuple with note = description or None. -/
def stageRow (rules : List Rule) (header : List Str) (dcol acol ncol : Str)
    (row : List Str) : Except PyErr (Option Staged) :=
  if (pyStrip ((rowGet header row dcol).getD [])).isEmpty ||
     (pyStrip ((rowGet header row acol).getD [])).isEmpty then .ok none
  else
    (parseDateYMD (pyStrip ((rowGet header row dcol).getD []))).bind (fun d =>
      (importAmount (pyStrip ((rowGet header row acol).getD []))).bind (fun amt =>
        .ok (some (d, amt,
          categorize_with_rules rules (pyStrip ((rowGet header row ncol).getD [])),
          (if (pyStrip ((rowGet header row ncol).getD [])).isEmpty then none
           else some (pyStrip ((rowGet header row ncol).getD [])))))))

/-- The staging loop of `import_csv`: the first failure aborts, skipped
rows contribute nothing, order is preserved. -/
def buildStaged (rules : List Rule) (header : List Str) (dcol acol ncol : Str) :
    List (List Str) → Except PyErr (List Staged)
  | [] => .ok []
  | row :: rest => do
    let s ← stageRow rules header dcol acol ncol row
    let tail ← buildStaged rules header dcol acol ncol rest
    pure (match s with | none => tail | some x => x :: tail)

/-- The batch INSERT of `import_csv`: each staged row becomes a transaction
with the next autoincrement id. -/
def insertMany (db : LedgerDB) (xs : List Staged) : LedgerDB :=
  xs.foldl (fun d x =>
    { rows := d.rows ++ [⟨d.nextId, x.1, x.2.1, x.2.2.1, x.2.2.2⟩],
      nextId := d.nextId + 1 }) db

/-- `import_csv` from expense.py, the source file given as its parsed
records (header row first) and the date format fixed to its default
`%Y-%m-%d`.  The store is returned alongside the result: every failure is
raised before the INSERT runs, so only a successful committed run changes
it. -/
def import_csv (rules : List Rule) (file : List (List Str))
    (dcol acol ncol : Str) (dry_run : Bool) (db : LedgerDB) :
    (Except PyErr Nat) × LedgerDB :=
  match file with
  | [] => (.error .noHeaders, db)
  | header :: rows =>
    match buildStaged rules header dcol acol ncol rows with
    | .error e => (.error e, db)
    | .ok staged =>
      if dry_run then (.ok staged.length, db)
      else (.ok staged.length, insertMany db staged)

/-! ### Claims about the money component -/

/-- C2: for every x in [0, 1000000], rendering x cents with
`cents_to_dollars` and parsing the result back with `dollars_to_cents`
returns exactly x. -/
theorem money_roundtrip_spec (x : Nat) (_hx : x ≤ 1000000) :
    dollars_to_cents (cents_to_dollars (x : Int)) = .ok x :=
  cents_roundtrip x

theorem money_roundtrip_spec_witness :
    123456 ≤ 1000000 ∧
      dollars_to_cents (cents_to_dollars ((123456 : Nat) : Int)) = .ok 123456 :=
  ⟨by norm_num, money_roundtrip_spec 123456 (by norm_num)⟩

/-- C4 counterexample: an amount field "+12.34" with a leading plus sign is
not parsed to 1234 cents; the import aborts with the amount-format error,
because only a minus sign is split off and "+12" fails the digit check. -/
theorem import_amount_plus_cex :
    importAmount (str "+12.34") = .error .amountNotNumber ∧
      importAmount (str "+12.34") ≠ .ok 1234 := by
  refine ⟨rfl, ?_⟩
  rw [show importAmount (str "+12.34") = .error .amountNotNumber from rfl]
  exact fun h => Except.noConfusion h

/-- C4 (amended): the import amount parser strips comma separators and
applies an optional leading minus sign to the parsed minor units — a plus
sign is not accepted, since the unsigned part must be all digits.  In
particular "-1,234.56" yields -123456 cents and "+12.34" is an error. -/
theorem import_amount_spec :
    importAmount (str "-1,234.56") = .ok (-123456)
    ∧ importAmount (str "+12.34") = .error .amountNotNumber
    ∧ (∀ raw rest n, pyStrip (raw.filter (fun c => c != ',')) = '-' :: rest →
        dollars_to_cents rest = .ok n → importAmount raw = .ok (-(n : Int)))
    ∧ (∀ raw n, (pyStrip (raw.filter (fun c => c != ','))).head? ≠ some '-' →
        dollars_to_cents (pyStrip (raw.filter (fun c => c != ','))) = .ok n →
        importAmount raw = .ok ((n : Int))) := by
  refine ⟨rfl, rfl, ?_, ?_⟩
  · intro raw rest n hsplit hparse
    unfold importAmount
    rw [hsplit]
    simp [hparse, Except.map]
  · intro raw n hhead hparse
    unfold importAmount
    cases hs : pyStrip (raw.filter (fun c => c != ',')) with
    | nil =>
      rw [hs] at hparse
      simp [hparse, Except.map, Functor.map]
    | cons c cs =>
      rw [hs] at hparse hhead
      have hc : c ≠ '-' := fun h => hhead (by simp [h])
      split
      · next rest heq =>
        rw [List.cons_eq_cons] at heq
        exact absurd heq.1 hc
      · simp [hparse, Except.map, Functor.map]

theorem import_amount_spec_witness :
    importAmount (str " -98.76 ") = .ok (-9876) :=
  import_amount_spec.2.2.1 (str " -98.76 ") (str "98.76") 9876 (by rfl) (by rfl)

/-! ### Claims about the budget store -/

lemma foldl_set_budget_unique (ops : List (Str × Str × Int)) :
    ∀ bs, budgetsUnique bs →
      budgetsUnique (ops.foldl
        (fun cur op => ((set_budget cur op.1 op.2.1 op.2.2).toOption).getD cur) bs) := by
  induction ops with
  | nil => intro bs hu; exact hu
  | cons op rest ih =>
    intro bs hu
    rw [List.foldl_cons]
    apply ih
    cases hset : set_budget bs op.1 op.2.1 op.2.2 with
    | error e => simpa [hset, Except.toOption] using hu
    | ok v =>
      have := set_budget_preserves_unique bs op.1 op.2.1 op.2.2 v hu hset
      simpa [hset, Except.toOption] using this

/-- C5: setting the same (month, category) twice upserts — after
set(m,c,l1); set(m,c,l2) exactly one budget row carries that key and its
limit is l2; a single set preserves key-uniqueness, hence any foldl
sequence of sets does (a failed set leaves the store unchanged, the
SystemExit firing before the write). -/
theorem set_budget_upsert_spec (bs : List Budget) (month category : Str)
    (l1 l2 : Int) (hu : budgetsUnique bs) :
    (∀ bs1 bs2, set_budget bs month category l1 = .ok bs1 →
        set_budget bs1 month category l2 = .ok bs2 →
        ∃ m, parse_month_ym month = .ok m ∧
          bs2.filter (fun e => decide (e.1 = m ∧ e.2.1 = normalize_category category)) =
            [(m, normalize_category category, l2)])
    ∧ (∀ mo ca am bs3, set_budget bs mo ca am = .ok bs3 → budgetsUnique bs3)
    ∧ ∀ ops : List (Str × Str × Int),
        budgetsUnique (ops.foldl
          (fun cur op => ((set_budget cur op.1 op.2.1 op.2.2).toOption).getD cur) bs) := by
  refine ⟨?_, ?_, fun ops => foldl_set_budget_unique ops bs hu⟩
  · intro bs1 bs2 h1 h2
    unfold set_budget at h1 h2
    cases hp : parse_month_ym month with
    | error e =>
      rw [hp] at h1
      exact absurd h1 (by simp [Except.map])
    | ok m =>
      rw [hp] at h1 h2
      simp only [Except.map, Except.ok.injEq] at h1 h2
      refine ⟨m, rfl, ?_⟩
      rw [← h2, ← h1]
      exact upsertBudget_filter _ _ _ _ (upsertBudget_unique _ _ _ _ hu)
  · exact fun mo ca am bs3 => set_budget_preserves_unique bs mo ca am bs3 hu

theorem set_budget_upsert_spec_witness :
    ∃ m, parse_month_ym (str "2024-03") = .ok m ∧
      ([(str "2024-03", str "rent", (120000 : Int))].filter
        (fun e => decide (e.1 = m ∧ e.2.1 = normalize_category (str "rent")))) =
        [(m, normalize_category (str "rent"), 120000)] :=
  (set_budget_upsert_spec [] (str "2024-03") (str "rent") 100000 120000
      (by exact List.Pairwise.nil)).1
    [(str "2024-03", str "rent", 100000)] [(str "2024-03", str "rent", 120000)]
    (by rfl) (by rfl)

/-! ### Claims about the rule engine -/

theorem categorize_with_rules_spec_witness :
    categorize_with_rules
      [⟨1, str "food", str "dining", 1⟩, ⟨2, str "fast", str "fastfood", 5⟩]
      (str "fastfood diner") = str "fastfood" :=
  (categorize_with_rules_spec
    [⟨1, str "food", str "dining", 1⟩, ⟨2, str "fast", str "fastfood", 5⟩]
    (str "fastfood diner") (by decide) (by decide)).2.2.2

/-! ### Claims about the ledger store -/

/-- C9: deleting an id not present fails with NotFound and the rows are
untouched (the DELETE matched nothing); deleting a present id succeeds and
removes exactly the rows carrying that id. -/
theorem delete_expense_spec (db : LedgerDB) (i : Nat) :
    ((∀ t ∈ db.rows, t.id ≠ i) →
      delete_expense db i = .error .notFound ∧
        db.rows.filter (fun t => t.id != i) = db.rows)
    ∧ (∀ t0 ∈ db.rows, t0.id = i →
      ∃ db2, delete_expense db i = .ok db2 ∧ db2.nextId = db.nextId ∧
        ∀ t, t ∈ db2.rows ↔ (t ∈ db.rows ∧ t.id ≠ i)) := by
  constructor
  · intro h
    have hfilter : db.rows.filter (fun t => t.id != i) = db.rows := by
      rw [List.filter_eq_self]
      intro t ht
      simpa using h t ht
    refine ⟨?_, hfilter⟩
    unfold delete_expense
    rw [hfilter, if_pos rfl]
  · intro t0 ht0 hid
    have hlt : (db.rows.filter (fun t => t.id != i)).length < db.rows.length := by
      rw [List.length_filter_lt_length_iff_exists]
      exact ⟨t0, ht0, by simp [hid]⟩
    refine ⟨⟨db.rows.filter (fun t => t.id != i), db.nextId⟩, ?_, rfl, ?_⟩
    · unfold delete_expense
      rw [if_neg (by omega)]
    · intro t
      rw [List.mem_filter]
      simp [bne_iff_ne]

theorem delete_expense_spec_witness :
    delete_expense ⟨[⟨1, str "2024-01-05", 1234, str "food", none⟩], 2⟩ 5 =
        .error .notFound ∧
      ([⟨1, str "2024-01-05", 1234, str "food", none⟩] : List Txn).filter
        (fun t => t.id != 5) = [⟨1, str "2024-01-05", 1234, str "food", none⟩] :=
  (delete_expense_spec ⟨[⟨1, str "2024-01-05", 1234, str "food", none⟩], 2⟩ 5).1
    (by decide)

/-- C10: the stored note is the note argument stripped of surrounding
whitespace, and an absent, empty, or all-whitespace argument is stored as
None — in particular inserting with note "  " and inserting with no note
produce identical results. -/
theorem add_expense_note_spec (db : LedgerDB) (spent_on : Str)
    (amount_cents : Int) (category : Str) :
    add_expense db spent_on amount_cents category (some (str "  ")) =
      add_expense db spent_on amount_cents category none
    ∧ (∀ note db2, add_expense db spent_on amount_cents category note = .ok db2 →
        db2.rows = db.rows ++ [⟨db.nextId, spent_on, amount_cents,
          normalize_category category,
          if (pyStrip (note.getD [])).isEmpty then none
          else some (pyStrip (note.getD []))⟩] ∧
        ∀ s, note = some s → pyStrip s ≠ [] →
          ∃ t, db2.rows = db.rows ++ [t] ∧ t.note = some (pyStrip s)) := by
  constructor
  · rfl
  · intro note db2 h
    unfold add_expense at h
    split at h
    · exact absurd h (by simp)
    · rw [Except.ok.injEq] at h
      subst h
      refine ⟨rfl, ?_⟩
      rintro s rfl hne
      refine ⟨⟨db.nextId, spent_on, amount_cents, normalize_category category,
        (if (pyStrip ((some s : Option Str).getD [])).isEmpty then none
         else some (pyStrip ((some s : Option Str).getD [])))⟩, rfl, ?_⟩
      simp [Option.getD, isEmpty_false_of_ne_nil hne]

theorem add_expense_note_spec_witness :
    ∃ t, (⟨[⟨1, str "2024-01-05", 350, str "food", some (str "coffee")⟩], 2⟩ :
        LedgerDB).rows = (⟨[], 1⟩ : LedgerDB).rows ++ [t] ∧
      t.note = some (pyStrip (str " coffee ")) := by
  have h := (add_expense_note_spec ⟨[], 1⟩ (str "2024-01-05") 350 (str "food")).2
    (some (str " coffee "))
    ⟨[⟨1, str "2024-01-05", 350, str "food", some (str "coffee")⟩], 2⟩ (by rfl)
  exact h.2 (str " coffee ") rfl (by decide)

/-! ### Claims about the import pipeline -/

lemma buildStaged_cons (rules : List Rule) (header : List Str)
    (dcol acol ncol : Str) (row : List Str) (rest : List (List Str)) :
    buildStaged rules header dcol acol ncol (row :: rest) =
      (stageRow rules header dcol acol ncol row).bind (fun s =>
        (buildStaged rules header dcol acol ncol rest).bind (fun tail =>
          .ok (match s with | none => tail | some x => x :: tail))) := rfl

lemma buildStaged_skip (rules : List Rule) (header : List Str)
    (dcol acol ncol : Str) (row : List Str)
    (hrow : stageRow rules header dcol acol ncol row = .ok none) :
    ∀ pre post : List (List Str),
      buildStaged rules header dcol acol ncol (pre ++ row :: post) =
        buildStaged rules header dcol acol ncol (pre ++ post) := by
  intro pre
  induction pre with
  | nil =>
    intro post
    rw [List.nil_append, List.nil_append, buildStaged_cons, hrow]
    cases hpost : buildStaged rules header dcol acol ncol post with
    | error e => rfl
    | ok tail => rfl
  | cons r pre ih =>
    intro post
    rw [List.cons_append, List.cons_append, buildStaged_cons, buildStaged_cons,
      ih post]

lemma buildStaged_error (rules : List Rule) (header : List Str)
    (dcol acol ncol : Str) (row : List Str) (err : PyErr)
    (hrow : stageRow rules header dcol acol ncol row = .error err) :
    ∀ pre post : List (List Str), ∀ s0,
      buildStaged rules header dcol acol ncol pre = .ok s0 →
      buildStaged rules header dcol acol ncol (pre ++ row :: post) =
        .error err := by
  intro pre
  induction pre with
  | nil =>
    intro post s0 _
    rw [List.nil_append, buildStaged_cons, hrow]
    rfl
  | cons r pre ih =>
    intro post s0 h
    rw [buildStaged_cons] at h
    rw [List.cons_append, buildStaged_cons]
    cases hr : stageRow rules header dcol acol ncol r with
    | error e =>
      rw [hr] at h
      exact absurd h (by intro hcon; exact Except.noConfusion hcon)
    | ok s =>
      rw [hr] at h
      cases hpre : buildStaged rules header dcol acol ncol pre with
      | error e =>
        rw [hpre] at h
        exact absurd h (by intro hcon; exact Except.noConfusion hcon)
      | ok sp =>
        rw [ih post sp hpre]
        rfl

lemma import_csv_cons (rules : List Rule) (header : List Str)
    (rows2 : List (List Str)) (dcol acol ncol : Str) (dry : Bool)
    (db : LedgerDB) :
    import_csv rules (header :: rows2) dcol acol ncol dry db =
      match buildStaged rules header dcol acol ncol rows2 with
      | .error e => (.error e, db)
      | .ok staged =>
        if dry then (.ok staged.length, db)
        else (.ok staged.length, insertMany db staged) := rfl

lemma stageRow_skip (rules : List Rule) (header : List Str)
    (dcol acol ncol : Str) (row : List Str)
    (h : pyStrip ((rowGet header row dcol).getD []) = [] ∨
         pyStrip ((rowGet header row acol).getD []) = []) :
    stageRow rules header dcol acol ncol row = .ok none := by
  unfold stageRow
  rcases h with h | h <;> simp [h]

lemma stageRow_bad_date (rules : List Rule) (header : List Str)
    (dcol acol ncol : Str) (row : List Str)
    (hd : pyStrip ((rowGet header row dcol).getD []) ≠ [])
    (ha : pyStrip ((rowGet header row acol).getD []) ≠ [])
    (hv : validYMD (pyStrip ((rowGet header row dcol).getD [])) = false) :
    stageRow rules header dcol acol ncol row = .error .dateParseFailed := by
  unfold stageRow
  rw [if_neg (by
    simp only [Bool.or_eq_true, List.isEmpty_iff]
    exact fun h => h.elim hd ha)]
  unfold parseDateYMD
  rw [hv]
  rfl

/-- C7: rows whose date or amount field is missing or empty are skipped
without error in either mode; and when staging reaches a row whose present
date does not parse under the (default) date format, the entire import
fails with the date-parse error and the store is returned unchanged, in
both dry-run and commit mode. -/
theorem import_skip_failfast_spec (rules : List Rule) (header : List Str)
    (dcol acol ncol : Str) (pre post : List (List Str)) (row : List Str)
    (db : LedgerDB) (dry : Bool) :
    ((pyStrip ((rowGet header row dcol).getD []) = [] ∨
      pyStrip ((rowGet header row acol).getD []) = []) →
      import_csv rules (header :: (pre ++ row :: post)) dcol acol ncol dry db =
        import_csv rules (header :: (pre ++ post)) dcol acol ncol dry db)
    ∧ (∀ s0, buildStaged rules header dcol acol ncol pre = .ok s0 →
        pyStrip ((rowGet header row dcol).getD []) ≠ [] →
        pyStrip ((rowGet header row acol).getD []) ≠ [] →
        validYMD (pyStrip ((rowGet header row dcol).getD [])) = false →
        import_csv rules (header :: (pre ++ row :: post)) dcol acol ncol dry db =
          (.error .dateParseFailed, db)) := by
  constructor
  · intro h
    rw [import_csv_cons, import_csv_cons,
      buildStaged_skip rules header dcol acol ncol row
        (stageRow_skip rules header dcol acol ncol row h) pre post]
  · intro s0 hpre hd ha hv
    rw [import_csv_cons,
      buildStaged_error rules header dcol acol ncol row .dateParseFailed
        (stageRow_bad_date rules header dcol acol ncol row hd ha hv) pre post s0 hpre]

theorem import_skip_failfast_spec_witness :
    import_csv [] [[str "date", str "amount"], [str "", str "5"],
        [str "2024-13-01", str "5"]]
      (str "date") (str "amount") (str "description") true ⟨[], 1⟩ =
      (.error .dateParseFailed, ⟨[], 1⟩) := by
  have h := (import_skip_failfast_spec [] [str "date", str "amount"]
    (str "date") (str "amount") (str "description")
    [[str "", str "5"]] [] [str "2024-13-01", str "5"] ⟨[], 1⟩ true).2
  have h2 := h [] (by rfl) (by decide) (by decide) (by decide)
  exact h2

/-- C8: a dry-run import runs the whole pipeline — it fails exactly when
staging fails and otherwise reports the count of staged rows — while the
store comes back unchanged, so any later query sees exactly the same
rows. -/
theorem import_dry_run_spec (rules : List Rule) (file : List (List Str))
    (dcol acol ncol : Str) (db : LedgerDB) :
    (import_csv rules file dcol acol ncol true db).2 = db
    ∧ (∀ header rows, file = header :: rows →
        (import_csv rules file dcol acol ncol true db).1 =
          (buildStaged rules header dcol acol ncol rows).map List.length)
    ∧ (∀ limit category month date_from date_to search,
        list_expenses (import_csv rules file dcol acol ncol true db).2
          limit category month date_from date_to search =
        list_expenses db limit category month date_from date_to search) := by
  have h2 : (import_csv rules file dcol acol ncol true db).2 = db := by
    cases file with
    | nil => rfl
    | cons header rows =>
      rw [import_csv_cons]
      cases hb : buildStaged rules header dcol acol ncol rows with
      | error e => rfl
      | ok staged => rfl
  refine ⟨h2, ?_, ?_⟩
  · rintro header rows rfl
    rw [import_csv_cons]
    cases hb : buildStaged rules header dcol acol ncol rows with
    | error e => rfl
    | ok staged => rfl
  · intro limit category month date_from date_to search
    rw [h2]

/-! ### Claims about the query -/

lemma lowerStr_nil : lowerStr [] = [] := rfl

lemma lowerStr_cons (c : Char) (cs : Str) :
    lowerStr (c :: cs) = lowerChar c :: lowerStr cs := rfl

lemma suffixes_any_iff (f : Str → Bool) (t : Str) :
    (suffixes t).any f = true ↔ ∃ n, f (t.drop n) = true := by
  induction t with
  | nil =>
    constructor
    · intro h
      exact ⟨0, by simpa [suffixes] using h⟩
    · rintro ⟨n, h⟩
      rw [List.drop_nil] at h
      simp [suffixes, h]
  | cons c cs ih =>
    constructor
    · intro h
      rw [show suffixes (c :: cs) = (c :: cs) :: suffixes cs from rfl,
        List.any_cons, Bool.or_eq_true_iff] at h
      rcases h with h | h
      · exact ⟨0, h⟩
      · obtain ⟨n, hn⟩ := ih.mp h
        exact ⟨n + 1, hn⟩
    · rintro ⟨n, h⟩
      rw [show suffixes (c :: cs) = (c :: cs) :: suffixes cs from rfl,
        List.any_cons, Bool.or_eq_true_iff]
      cases n with
      | zero => exact Or.inl h
      | succ n => exact Or.inr (ih.mpr ⟨n, h⟩)

lemma likeMatch_pct_iff (q t : Str) :
    likeMatch ('%' :: q) t = true ↔ ∃ n, likeMatch q (t.drop n) = true := by
  rw [show likeMatch ('%' :: q) t =
    (suffixes t).any (fun suf => likeMatch q suf) from by simp [likeMatch]]
  exact suffixes_any_iff _ t

lemma likeMatch_pct (t : Str) : likeMatch ['%'] t = true := by
  rw [likeMatch_pct_iff]
  exact ⟨t.length, by simp [likeMatch]⟩

lemma likeMatch_trail {s : Str} (hs : ∀ c ∈ s, c ≠ '%' ∧ c ≠ '_') (t : Str) :
    likeMatch (s ++ ['%']) t = headMatch (lowerStr s) (lowerStr t) := by
  induction s generalizing t with
  | nil => simp [likeMatch_pct, lowerStr_nil, headMatch]
  | cons p ps ih =>
    have hp := hs p (List.mem_cons_self p ps)
    cases t with
    | nil =>
      simp [likeMatch, hp.1, lowerStr_cons, lowerStr_nil, headMatch]
    | cons c cs =>
      simp only [List.cons_append, likeMatch, if_neg hp.1, if_neg hp.2,
        lowerStr_cons, headMatch, List.append_eq]
      rw [ih (fun x hx => hs x (List.mem_cons_of_mem p hx)) cs]
      rfl

lemma containsSub_drop_iff (pat t : Str) :
    containsSub pat t = true ↔ ∃ n, headMatch pat (t.drop n) = true := by
  induction t with
  | nil =>
    constructor
    · intro h
      exact ⟨0, h⟩
    · rintro ⟨n, h⟩
      rw [List.drop_nil] at h
      exact h
  | cons c cs ih =>
    constructor
    · intro h
      rcases Bool.or_eq_true_iff.mp (by simpa [containsSub] using h) with h | h
      · exact ⟨0, h⟩
      · obtain ⟨n, hn⟩ := ih.mp h
        exact ⟨n + 1, hn⟩
    · rintro ⟨n, h⟩
      unfold containsSub
      rw [Bool.or_eq_true_iff]
      cases n with
      | zero => exact Or.inl h
      | succ n => exact Or.inr (ih.mpr ⟨n, h⟩)

/-- The LIKE pattern `%s%` built by list_expenses is, for a wildcard-free
search string, exactly ASCII-case-insensitive substring containment. -/
lemma likeMatch_substring {s : Str} (hs : ∀ c ∈ s, c ≠ '%' ∧ c ≠ '_')
    (t : Str) :
    likeMatch ('%' :: (s ++ ['%'])) t =
      containsSub (lowerStr s) (lowerStr t) := by
  rw [Bool.eq_iff_iff, likeMatch_pct_iff, containsSub_drop_iff]
  constructor
  · rintro ⟨n, hn⟩
    rw [likeMatch_trail hs] at hn
    refine ⟨n, ?_⟩
    rwa [show lowerStr (t.drop n) = (lowerStr t).drop n
      from List.map_drop _ _ _] at hn
  · rintro ⟨n, hn⟩
    refine ⟨n, ?_⟩
    rw [likeMatch_trail hs]
    rwa [show lowerStr (t.drop n) = (lowerStr t).drop n
      from List.map_drop _ _ _]

lemma containsSub_nil_pat (t : Str) : containsSub [] t = true := by
  cases t with
  | nil => rfl
  | cons c cs => simp [containsSub, headMatch]

lemma ebind_ok {α β : Type} (a : α) (f : α → Except PyErr β) :
    (Except.ok a : Except PyErr α).bind f = f a := rfl

lemma catFilter_eq (category : Option Str) (t : Txn) :
    category ≠ some [] →
    (match (presentOpt category).map normalize_category with
      | none => true | some c => decide (t.category = c)) =
    (match category with
      | none => true | some c => decide (t.category = normalize_category c)) := by
  intro hc
  cases category with
  | none => rfl
  | some c =>
    have hcne : c ≠ [] := fun h => hc (by rw [h])
    simp [presentOpt, isEmpty_false_of_ne_nil hcne]

lemma searchFilter_eq (search : Option Str) (t : Txn) :
    (∀ s ∈ search, ∀ c ∈ s, c ≠ '%' ∧ c ≠ '_') →
    (match presentOpt search with
      | none => true
      | some s => likeMatch ('%' :: (s ++ ['%'])) (t.note.getD [])) =
    (match search with
      | none => true
      | some s => containsSub (lowerStr s) (lowerStr (t.note.getD []))) := by
  intro hs
  cases search with
  | none => rfl
  | some s =>
    by_cases hsnil : s = []
    · subst hsnil
      simp [presentOpt, lowerStr_nil, containsSub_nil_pat]
    · simp only [presentOpt, isEmpty_false_of_ne_nil hsnil, Bool.false_eq_true,
        if_false]
      exact likeMatch_substring (hs s rfl) (t.note.getD [])

/-- C6 (amended): with well-formed filter values — a non-empty category, a
canonical month and canonical dates, and a search string free of the LIKE
wildcards % and _ — the query returns exactly the transactions satisfying
the conjunction of the supplied filters (spec reading: exact category,
month prefix, inclusive range, case-insensitive substring on the note),
ordered by (date, id) descending and truncated to the limit, whose default
is 20.  (With wildcards in the search string SQL LIKE semantics applies
instead, see the counterexample.) -/
theorem list_expenses_spec (db : LedgerDB) (limit : Nat)
    (category month date_from date_to search : Option Str)
    (hc : category ≠ some [])
    (hm : ∀ m ∈ month, parse_month_ym m = .ok m)
    (hf : ∀ d ∈ date_from, parse_date d = .ok d)
    (ht : ∀ d ∈ date_to, parse_date d = .ok d)
    (hs : ∀ s ∈ search, ∀ c ∈ s, c ≠ '%' ∧ c ≠ '_') :
    list_expenses db limit category month date_from date_to search =
      .ok ((List.insertionSort qOrd (db.rows.filter
        (specMatches category month date_from date_to search))).take limit)
    ∧ list_expenses_default db category month date_from date_to search =
        list_expenses db 20 category month date_from date_to search := by
  refine ⟨?_, rfl⟩
  have hmo : (match presentOpt month with
      | none => Except.ok none
      | some s => (parse_month_ym s).map some) = Except.ok month := by
    cases month with
    | none => rfl
    | some m =>
      have hmne : m ≠ [] := by
        intro h
        subst h
        exact Except.noConfusion (hm [] rfl)
      simp [presentOpt, isEmpty_false_of_ne_nil hmne, hm m rfl, Except.map]
  have hdf : (match presentOpt date_from with
      | none => Except.ok none
      | some s => (parse_date s).map some) = Except.ok date_from := by
    cases date_from with
    | none => rfl
    | some d =>
      have hdne : d ≠ [] := by
        intro h
        subst h
        exact Except.noConfusion (hf [] rfl)
      simp [presentOpt, isEmpty_false_of_ne_nil hdne, hf d rfl, Except.map]
  have hdt : (match presentOpt date_to with
      | none => Except.ok none
      | some s => (parse_date s).map some) = Except.ok date_to := by
    cases date_to with
    | none => rfl
    | some d =>
      have hdne : d ≠ [] := by
        intro h
        subst h
        exact Except.noConfusion (ht [] rfl)
      simp [presentOpt, isEmpty_false_of_ne_nil hdne, ht d rfl, Except.map]
  unfold list_expenses
  rw [hmo, ebind_ok, hdf, ebind_ok, hdt, ebind_ok]
  have hfilter : db.rows.filter (fun t =>
      (match (presentOpt category).map normalize_category with
        | none => true | some c => t.category = c) &&
      (match month with | none => true | some m => t.spent_on.take 7 = m) &&
      (match date_from with | none => true | some d => lexLe d t.spent_on) &&
      (match date_to with | none => true | some d => lexLe t.spent_on d) &&
      (match presentOpt search with
        | none => true
        | some s => likeMatch ('%' :: (s ++ ['%'])) (t.note.getD []))) =
      db.rows.filter (specMatches category month date_from date_to search) := by
    apply List.filter_congr
    intro t _
    unfold specMatches
    rw [catFilter_eq category t hc, searchFilter_eq search t hs]
  rw [hfilter]

/-- C6 counterexample: the search string is injected into the SQL LIKE
pattern, so its wildcard characters are interpreted: with a stored note
"axb" the search "a_b" returns the row although "a_b" is not a substring
of "axb". -/
theorem list_expenses_like_cex :
    list_expenses ⟨[⟨1, str "2024-01-05", 100, str "food", some (str "axb")⟩], 2⟩
        20 none none none none (some (str "a_b")) =
      .ok [⟨1, str "2024-01-05", 100, str "food", some (str "axb")⟩]
    ∧ containsSub (lowerStr (str "a_b")) (lowerStr (str "axb")) = false :=
  ⟨rfl, rfl⟩

theorem list_expenses_spec_witness :
    list_expenses
      ⟨[⟨1, str "2024-01-05", 1234, str "food", none⟩,
        ⟨2, str "2024-02-01", 90000, str "rent", none⟩], 3⟩
      20 none (some (str "2024-01")) none none none =
      .ok ((List.insertionSort qOrd
        (([⟨1, str "2024-01-05", 1234, str "food", none⟩,
           ⟨2, str "2024-02-01", 90000, str "rent", none⟩] : List Txn).filter
          (specMatches none (some (str "2024-01")) none none none))).take 20) :=
  (list_expenses_spec
    ⟨[⟨1, str "2024-01-05", 1234, str "food", none⟩,
      ⟨2, str "2024-02-01", 90000, str "rent", none⟩], 3⟩
    20 none (some (str "2024-01")) none none none
    (by intro h; exact Option.noConfusion h)
    (by intro m hm2; rw [Option.mem_def, Option.some.injEq] at hm2; rw [← hm2]; rfl)
    (by intro d hd; exact Option.noConfusion hd)
    (by intro d hd; exact Option.noConfusion hd)
    (by intro s hs2; exact Option.noConfusion hs2)).1

/-! ### Claims about export followed by re-import -/

lemma parse_month_ym_strip {s0 v : Str} (h : parse_month_ym s0 = .ok v) :
    v = pyStrip s0 := by
  unfold parse_month_ym at h
  split at h
  · exact absurd h (by intro hcon; exact Except.noConfusion hcon)
  · split at h
    · exact absurd h (by intro hcon; exact Except.noConfusion hcon)
    · split at h
      · exact absurd h (by intro hcon; exact Except.noConfusion hcon)
      · exact (Except.ok.injEq _ _ ▸ h).symm

lemma validYMD_props {s : Str} (h : validYMD s = true) :
    (∀ c ∈ s, c.isWhitespace = false) ∧ s ≠ [] := by
  unfold validYMD at h
  split at h
  · next y1 y2 y3 y4 s5 m1 m2 s8 d1 d2 =>
    simp only [Bool.and_eq_true, decide_eq_true_eq, List.all_eq_true] at h
    obtain ⟨⟨⟨⟨⟨⟨⟨h5, h8⟩, hdig⟩, _⟩, _⟩, _⟩, _⟩, _⟩ := h
    constructor
    · intro c hc
      simp only [List.mem_cons, List.not_mem_nil, or_false] at hc
      rcases hc with rfl | rfl | rfl | rfl | rfl | rfl | rfl | rfl | rfl | rfl
      · exact isDigit_not_ws (hdig _ (by simp))
      · exact isDigit_not_ws (hdig _ (by simp))
      · exact isDigit_not_ws (hdig _ (by simp))
      · exact isDigit_not_ws (hdig _ (by simp))
      · rw [h5]; decide
      · exact isDigit_not_ws (hdig _ (by simp))
      · exact isDigit_not_ws (hdig _ (by simp))
      · rw [h8]; decide
      · exact isDigit_not_ws (hdig _ (by simp))
      · exact isDigit_not_ws (hdig _ (by simp))
    · simp
  · exact absurd h (by simp)

lemma cents_to_dollars_no_ws (a : Int) :
    ∀ c ∈ cents_to_dollars a, c.isWhitespace = false := by
  intro c hc
  unfold cents_to_dollars at hc
  rcases List.mem_append.mp hc with h | h
  · rcases List.mem_append.mp h with h1 | h1
    · split at h1
      · rw [List.mem_singleton] at h1
        rw [h1]; decide
      · exact absurd h1 (List.not_mem_nil c)
    · exact isDigit_not_ws (natRepr_all_digits _ _ h1)
  · rw [List.mem_cons] at h
    rcases h with rfl | h
    · decide
    · exact isDigit_not_ws (pad2_all_digits _ _ h)

lemma cents_to_dollars_ne_nil (a : Int) : cents_to_dollars a ≠ [] := by
  unfold cents_to_dollars
  intro h
  rcases List.append_eq_nil.mp h with ⟨_, h2⟩
  exact List.cons_ne_nil _ _ h2

/-- One exported row, re-read by the import loop under the default column
mapping: the date and amount fields round-trip, but the description column
"description" is absent from the export header, so the note is staged as
None and the category is the classification of the empty string. -/
lemma stageRow_export (rules : List Rule) (t : Txn)
    (hd : validYMD t.spent_on = true) :
    stageRow rules [str "date", str "amount", str "category", str "note"]
      (str "date") (str "amount") (str "description")
      [t.spent_on, cents_to_dollars t.amount_cents, t.category, t.note.getD []] =
      .ok (some (t.spent_on, t.amount_cents, categorize_with_rules rules [],
        none)) := by
  unfold stageRow
  rw [show (rowGet [str "date", str "amount", str "category", str "note"]
      [t.spent_on, cents_to_dollars t.amount_cents, t.category, t.note.getD []]
      (str "date")).getD [] = t.spent_on from rfl]
  rw [show (rowGet [str "date", str "amount", str "category", str "note"]
      [t.spent_on, cents_to_dollars t.amount_cents, t.category, t.note.getD []]
      (str "amount")).getD [] = cents_to_dollars t.amount_cents from rfl]
  rw [show (rowGet [str "date", str "amount", str "category", str "note"]
      [t.spent_on, cents_to_dollars t.amount_cents, t.category, t.note.getD []]
      (str "description")).getD [] = ([] : Str) from rfl]
  rw [pyStrip_eq_self (validYMD_props hd).1,
    pyStrip_eq_self (cents_to_dollars_no_ws t.amount_cents)]
  rw [isEmpty_false_of_ne_nil (validYMD_props hd).2,
    isEmpty_false_of_ne_nil (cents_to_dollars_ne_nil t.amount_cents)]
  simp only [Bool.or_self, Bool.false_eq_true, if_false]
  unfold parseDateYMD
  rw [hd, if_pos rfl, ebind_ok, importAmount_render t.amount_cents, ebind_ok]
  rfl

/-- The staging loop over a whole exported month. -/
lemma buildStaged_export (rules : List Rule) (l : List Txn)
    (h : ∀ t ∈ l, validYMD t.spent_on = true) :
    buildStaged rules [str "date", str "amount", str "category", str "note"]
      (str "date") (str "amount") (str "description")
      (l.map (fun t => [t.spent_on, cents_to_dollars t.amount_cents, t.category,
        t.note.getD []])) =
      .ok (l.map (fun t => (t.spent_on, t.amount_cents,
        categorize_with_rules rules [], none))) := by
  induction l with
  | nil => rfl
  | cons t ts ih =>
    rw [List.map_cons, buildStaged_cons,
      stageRow_export rules t (h t (List.mem_cons_self t ts)), ebind_ok,
      ih (fun x hx => h x (List.mem_cons_of_mem t hx)), ebind_ok,
      List.map_cons]

/-- C1 (amended): re-importing an exported month with the default column
mapping and commitFlag true inserts one row per exported transaction and
preserves the multiset of (date, amount) pairs, but every inserted note is
None and every inserted category is the rule engine's classification of the
empty description — not the exported category and note — because the
default description column name "description" is absent from the export
header `date,amount,category,note`. -/
theorem export_import_spec (rules : List Rule) (db db2 : LedgerDB)
    (month : Str) (file : List (List Str))
    (hdates : ∀ t ∈ db.rows, validYMD t.spent_on = true)
    (hexp : export_month_csv db month = .ok file) :
    ∃ staged : List Staged,
      import_csv rules file (str "date") (str "amount") (str "description")
        false db2 = (.ok staged.length, insertMany db2 staged)
      ∧ staged = (List.insertionSort eOrd (db.rows.filter
          (fun t => t.spent_on.take 7 = pyStrip month))).map
          (fun t => (t.spent_on, t.amount_cents,
            categorize_with_rules rules [], none))
      ∧ (↑(staged.map (fun x => (x.1, x.2.1))) : Multiset (Str × Int)) =
          ↑((db.rows.filter (fun t => t.spent_on.take 7 = pyStrip month)).map
            (fun t => (t.spent_on, t.amount_cents)))
      ∧ ∀ x ∈ staged, x.2.2.1 = categorize_with_rules rules []
          ∧ x.2.2.2 = none := by
  unfold export_month_csv at hexp
  cases hp : parse_month_ym month with
  | error e =>
    rw [hp] at hexp
    exact absurd hexp (by simp [Except.map])
  | ok m =>
    have hm : m = pyStrip month := parse_month_ym_strip hp
    subst hm
    rw [hp] at hexp
    simp only [Except.map, Except.ok.injEq] at hexp
    have hperm := List.perm_insertionSort eOrd
      (db.rows.filter (fun t => t.spent_on.take 7 = pyStrip month))
    have hmemL : ∀ t ∈ List.insertionSort eOrd
        (db.rows.filter (fun t => t.spent_on.take 7 = pyStrip month)),
        validYMD t.spent_on = true := by
      intro t ht
      exact hdates t (List.mem_filter.mp (hperm.mem_iff.mp ht)).1
    refine ⟨(List.insertionSort eOrd (db.rows.filter
        (fun t => t.spent_on.take 7 = pyStrip month))).map
        (fun t => (t.spent_on, t.amount_cents,
          categorize_with_rules rules [], none)), ?_, rfl, ?_, ?_⟩
    · rw [← hexp, import_csv_cons, buildStaged_export rules _ hmemL]
      rfl
    · rw [List.map_map, Multiset.coe_eq_coe]
      have hcomp : ((fun x : Staged => (x.1, x.2.1)) ∘
          (fun t : Txn => ((t.spent_on, t.amount_cents,
            categorize_with_rules rules [], none) : Staged))) =
          fun t : Txn => (t.spent_on, t.amount_cents) := rfl
      rw [hcomp]
      exact hperm.map _
    · intro x hx
      rw [List.mem_map] at hx
      obtain ⟨t, _, rfl⟩ := hx
      exact ⟨rfl, rfl⟩

/-- C1 counterexample: exporting a month holding one transaction with
category "rent" and note "x", then re-importing the produced file with the
default mapping and commitFlag true, inserts (date, amount,
"uncategorized", None): the multiset of (date, amount, category, note)
tuples is not preserved. -/
theorem export_import_cex :
    export_month_csv ⟨[⟨1, str "2024-01-05", 1234, str "rent",
        some (str "x")⟩], 2⟩ (str "2024-01") =
      .ok [[str "date", str "amount", str "category", str "note"],
           [str "2024-01-05", str "12.34", str "rent", str "x"]]
    ∧ import_csv [] [[str "date", str "amount", str "category", str "note"],
           [str "2024-01-05", str "12.34", str "rent", str "x"]]
        (str "date") (str "amount") (str "description") false ⟨[], 1⟩ =
      (.ok 1, ⟨[⟨1, str "2024-01-05", 1234, str "uncategorized", none⟩], 2⟩)
    ∧ (↑(([⟨1, str "2024-01-05", 1234, str "uncategorized", none⟩] :
            List Txn).map (fun t => (t.spent_on, t.amount_cents, t.category,
            t.note))) : Multiset (Str × Int × Str × Option Str)) ≠
        ↑(([⟨1, str "2024-01-05", 1234, str "rent", some (str "x")⟩] :
            List Txn).map (fun t => (t.spent_on, t.amount_cents, t.category,
            t.note))) := by
  refine ⟨rfl, rfl, ?_⟩
  intro h
  rw [List.map_cons, List.map_nil, List.map_cons, List.map_nil,
    Multiset.coe_eq_coe, List.perm_singleton] at h
  rw [List.cons_eq_cons] at h
  have h2 := h.1
  rw [Prod.mk.injEq, Prod.mk.injEq, Prod.mk.injEq] at h2
  exact absurd h2.2.2.1 (by decide)

theorem export_import_spec_witness :
    ∃ staged : List Staged,
      import_csv [] [[str "date", str "amount", str "category", str "note"],
          [str "2024-01-05", str "12.34", str "rent", str "x"]]
        (str "date") (str "amount") (str "description") false ⟨[], 1⟩ =
        (.ok staged.length, insertMany ⟨[], 1⟩ staged)
      ∧ staged = (List.insertionSort eOrd
          (([⟨1, str "2024-01-05", 1234, str "rent", some (str "x")⟩] :
            List Txn).filter
            (fun t => t.spent_on.take 7 = pyStrip (str "2024-01")))).map
          (fun t => (t.spent_on, t.amount_cents,
            categorize_with_rules [] [], none))
      ∧ (↑(staged.map (fun x => (x.1, x.2.1))) : Multiset (Str × Int)) =
          ↑((([⟨1, str "2024-01-05", 1234, str "rent", some (str "x")⟩] :
            List Txn).filter
            (fun t => t.spent_on.take 7 = pyStrip (str "2024-01"))).map
            (fun t => (t.spent_on, t.amount_cents)))
      ∧ ∀ x ∈ staged, x.2.2.1 = categorize_with_rules [] []
          ∧ x.2.2.2 = none :=
  export_import_spec [] ⟨[⟨1, str "2024-01-05", 1234, str "rent",
      some (str "x")⟩], 2⟩ ⟨[], 1⟩ (str "2024-01")
    [[str "date", str "amount", str "category", str "note"],
     [str "2024-01-05", str "12.34", str "rent", str "x"]]
    (by decide) (by rfl)

theorem import_dry_run_spec_witness :
    (import_csv [] [[str "date", str "amount"], [str "2024-01-05", str "5"]]
      (str "date") (str "amount") (str "description") true ⟨[], 1⟩).1 =
      (buildStaged [] [str "date", str "amount"]
        (str "date") (str "amount") (str "description")
        [[str "2024-01-05", str "5"]]).map List.length :=
  (import_dry_run_spec [] [[str "date", str "amount"],
      [str "2024-01-05", str "5"]]
    (str "date") (str "amount") (str "description") ⟨[], 1⟩).2.1
    [str "date", str "amount"] [[str "2024-01-05", str "5"]] rfl

end Expense
